import Mathlib

/-!
Verification development for the Orbit end-to-end UI automation harness
(contrib/automation_tests).  The repository surface consists of scenario
scripts (orbit_bottom_up.py, orbit_instrument_function.py,
orbit_track_type_visibility.py, orbit_tracks.py) and the MoveTab / EndSession
test cases (test_cases/main_window.py), all driving the orchestration engine
in core/orbit_e2e.py (ConditionWaiter, ControlFinder, ExpectationRecorder,
E2ETestCase, E2ETestSuite).  The engine itself is not part of the visible
sources, so its components are modelled from the specification; the visible
test-case code is embedded directly.
-/

/-! ## ConditionWaiter -/

/-- Outcome of evaluating the waiter's zero-argument predicate on one polling
tick: it may return true, return false, raise a transient "not found yet"
condition, or raise a non-transient (fatal) error. -/
inductive TickResult where
  | ptrue
  | pfalse
  | transientErr
  | fatalErr
deriving DecidableEq, Repr

/-- Result of a bounded wait: success after some elapsed time, a Timeout
failure after some elapsed time, or a propagated non-transient error. -/
inductive WaitOutcome where
  | success (elapsed : Nat)
  | timedOut (elapsed : Nat)
  | fatal (elapsed : Nat)
deriving DecidableEq, Repr

/-- Modelled from the spec: core.orbit_e2e.wait_for_condition is absent from
the visible sources.  The waiter evaluates the predicate at ticks 0, 1, 2, ...
spaced `interval` time units apart, while the elapsed time is below `timeout`.
A true predicate ends the wait successfully; a transient "not found" condition
is swallowed and counts as false for that tick; a non-transient error
propagates immediately.  `fuel` bounds the recursion and is chosen large
enough in `waitFor` that the timeout check always fires first. -/
def waitAux (pred : Nat → TickResult) (timeout interval : Nat) :
    Nat → Nat → WaitOutcome
  | 0, k => WaitOutcome.timedOut (k * interval)
  | fuel + 1, k =>
    if timeout ≤ k * interval then WaitOutcome.timedOut (k * interval)
    else
      match pred k with
      | TickResult.ptrue => WaitOutcome.success (k * interval)
      | TickResult.fatalErr => WaitOutcome.fatal (k * interval)
      | _ => waitAux pred timeout interval fuel (k + 1)

/-- Modelled from the spec: poll `pred` every `interval` time units until it
returns true or `timeout` elapses. -/
def waitFor (pred : Nat → TickResult) (timeout interval : Nat) : WaitOutcome :=
  waitAux pred timeout interval (timeout + 1) 0

/-- A predicate that never returns true and never raises fatally drives the
wait to a Timeout whose elapsed time is at least the timeout. -/
theorem waitAux_timeout (pred : Nat → TickResult) (timeout interval : Nat)
    (hpred : ∀ j, pred j = TickResult.pfalse ∨ pred j = TickResult.transientErr) :
    ∀ fuel k, timeout ≤ (k + fuel) * interval →
      ∃ m, k ≤ m ∧ timeout ≤ m * interval ∧
        waitAux pred timeout interval fuel k = WaitOutcome.timedOut (m * interval) := by
  intro fuel
  induction fuel with
  | zero =>
    intro k hk
    refine ⟨k, le_refl k, ?_, rfl⟩
    simpa using hk
  | succ fuel ih =>
    intro k hk
    simp only [waitAux]
    by_cases hto : timeout ≤ k * interval
    · exact ⟨k, le_refl k, hto, by simp [hto]⟩
    · have hrec : timeout ≤ (k + 1 + fuel) * interval := by
        have : k + 1 + fuel = k + (fuel + 1) := by omega
        rw [this]; exact hk
      obtain ⟨m, hm1, hm2, hm3⟩ := ih (k + 1) hrec
      refine ⟨m, by omega, hm2, ?_⟩
      rcases hpred k with hp | hp <;> simp [hto, hp, hm3]

/-- If the predicate is false (or transiently failing) on every tick before
tick `k` and true at tick `k`, and tick `k` falls inside the timeout window,
the wait succeeds at elapsed time k·interval. -/
theorem waitAux_success (pred : Nat → TickResult) (timeout interval : Nat)
    (k : Nat)
    (hbefore : ∀ j, j < k → pred j = TickResult.pfalse ∨ pred j = TickResult.transientErr)
    (hk : pred k = TickResult.ptrue)
    (hin : k * interval < timeout) :
    ∀ fuel k0, k0 ≤ k → k - k0 < fuel →
      waitAux pred timeout interval fuel k0 = WaitOutcome.success (k * interval) := by
  intro fuel
  induction fuel with
  | zero => intro k0 _ hf; omega
  | succ fuel ih =>
    intro k0 hk0 hf
    have hmono : k0 * interval ≤ k * interval :=
      Nat.mul_le_mul hk0 (le_refl interval)
    have hto : ¬ timeout ≤ k0 * interval := by omega
    simp only [waitAux]
    by_cases heq : k0 = k
    · subst heq
      simp [hto, hk]
    · have hlt : k0 < k := by omega
      rcases hbefore k0 hlt with hp | hp <;>
        · simp only [hto, if_false, hp]
          exact ih (k0 + 1) (by omega) (by omega)

/-- Symmetric to `waitAux_success`: a non-transient error at tick `k`, after
only false/transient ticks, propagates immediately as a fatal outcome. -/
theorem waitAux_fatal (pred : Nat → TickResult) (timeout interval : Nat)
    (k : Nat)
    (hbefore : ∀ j, j < k → pred j = TickResult.pfalse ∨ pred j = TickResult.transientErr)
    (hk : pred k = TickResult.fatalErr)
    (hin : k * interval < timeout) :
    ∀ fuel k0, k0 ≤ k → k - k0 < fuel →
      waitAux pred timeout interval fuel k0 = WaitOutcome.fatal (k * interval) := by
  intro fuel
  induction fuel with
  | zero => intro k0 _ hf; omega
  | succ fuel ih =>
    intro k0 hk0 hf
    have hmono : k0 * interval ≤ k * interval :=
      Nat.mul_le_mul hk0 (le_refl interval)
    have hto : ¬ timeout ≤ k0 * interval := by omega
    simp only [waitAux]
    by_cases heq : k0 = k
    · subst heq
      simp [hto, hk]
    · have hlt : k0 < k := by omega
      rcases hbefore k0 hlt with hp | hp <;>
        · simp only [hto, if_false, hp]
          exact ih (k0 + 1) (by omega) (by omega)

/-- The waiter cannot distinguish a tick on which the predicate returned false
from one on which it raised a transient condition: both continue polling. -/
theorem waitAux_transient_eq_false (timeout interval : Nat) :
    ∀ fuel k,
      waitAux (fun _ => TickResult.transientErr) timeout interval fuel k
        = waitAux (fun _ => TickResult.pfalse) timeout interval fuel k := by
  intro fuel
  induction fuel with
  | zero => intro k; rfl
  | succ fuel ih =>
    intro k
    simp only [waitAux]
    by_cases hto : timeout ≤ k * interval
    · simp [hto]
    · simp [hto, ih]

/-! ## ControlFinder: the UI tree, search criteria, and matching -/

/-- One node of the accessibility tree: a control-type tag, a display name,
and an ordered list of child nodes. -/
inductive UIElement where
  | node (ctype : String) (name : String) (children : List UIElement)

/-- Control-type tag of a node. -/
def UIElement.ctypeOf : UIElement → String
  | UIElement.node t _ _ => t

/-- Display name of a node. -/
def UIElement.nameOf : UIElement → String
  | UIElement.node _ n _ => n

/-- Immediate children of a node. -/
def UIElement.childrenList : UIElement → List UIElement
  | UIElement.node _ _ cs => cs

mutual

/-- All descendants of a node in tree (pre-order) order, the node itself
excluded, matching the backend's recursive enumeration. -/
def UIElement.descendantsList : UIElement → List UIElement
  | UIElement.node _ _ cs => descendantsOfList cs

/-- Pre-order flattening of a forest: each root followed by its descendants. -/
def descendantsOfList : List UIElement → List UIElement
  | [] => []
  | e :: es => e :: (UIElement.descendantsList e ++ descendantsOfList es)

end

/-- Boolean prefix test on character lists. -/
def charsPrefix : List Char → List Char → Bool
  | [], _ => true
  | _ :: _, [] => false
  | p :: ps, c :: cs => decide (p = c) && charsPrefix ps cs

/-- Boolean substring (contiguous infix) test on character lists. -/
def charsInfix (needle : List Char) : List Char → Bool
  | [] => charsPrefix needle []
  | c :: cs => charsPrefix needle (c :: cs) || charsInfix needle cs

/-- Glob-style wildcard matching: `*` matches any run of characters and `?`
matches any single character; all other characters match themselves. -/
def globMatch : List Char → List Char → Bool
  | [], [] => true
  | [], _ :: _ => false
  | p :: ps, [] => if p = '*' then globMatch ps [] else false
  | p :: ps, c :: cs =>
    if p = '*' then globMatch ps (c :: cs) || globMatch (p :: ps) cs
    else (decide (p = c) || decide (p = '?')) && globMatch ps cs
termination_by p s => (p.length, s.length)

/-- Modelled from the spec: the Search Criteria consumed by ControlFinder
(find_control's parameters in core.orbit_e2e, absent from the visible
sources): an optional control-type tag, a name constraint that is either an
exact name, a "contains" substring, or an alternation of glob patterns, a
recursive flag, and an allow-duplicates flag.  The parent scope is supplied
separately to the finder. -/
structure SearchCriteria where
  ctype : Option String
  nameExact : Option String
  nameContains : Option String
  namePatterns : List String
  recurse : Bool
  allowDuplicates : Bool
deriving DecidableEq, Repr

/-- Name matching with the spec's precedence: exact match first, then
substring ("contains"), then glob wildcard/alternation; a criteria with no
name constraint matches every name. -/
def nameMatches (c : SearchCriteria) (name : String) : Bool :=
  match c.nameExact with
  | some s => decide (name = s)
  | none =>
    match c.nameContains with
    | some s => charsInfix s.data name.data
    | none =>
      if c.namePatterns.isEmpty then true
      else c.namePatterns.any (fun p => globMatch p.data name.data)

/-- Whether one element satisfies the criteria: the control type (when
constrained) must be equal, and the name constraint must hold. -/
def uiMatches (c : SearchCriteria) (e : UIElement) : Bool :=
  (match c.ctype with
   | none => true
   | some t => decide (e.ctypeOf = t))
  && nameMatches c e.nameOf

/-- Candidate elements of one search: all descendants of the scope when the
recursive flag is set, only its immediate children otherwise, in tree order. -/
def candidates (c : SearchCriteria) (scope : UIElement) : List UIElement :=
  if c.recurse then scope.descendantsList else scope.childrenList

/-- The elements matching the criteria at one instant, in tree order. -/
def findAllNow (c : SearchCriteria) (scope : UIElement) : List UIElement :=
  (candidates c scope).filter (uiMatches c)

/-- Failure conditions of the finder: ControlNotFound carries the criteria,
the scope, and the elapsed time; AmbiguousMatch carries the match count and
the criteria. -/
inductive FindError where
  | controlNotFound (criteria : SearchCriteria) (scope : UIElement) (elapsed : Nat)
  | ambiguousMatch (count : Nat) (criteria : SearchCriteria)

/-- Modelled from the spec: core.orbit_e2e's find_control resolution loop is
absent from the visible sources.  The live tree changes over time, so the
scope is a function of the polling tick.  At each tick inside the timeout
window the finder evaluates the criteria: zero matches means retry on the
next tick; several matches with allow_duplicates false is an immediate
AmbiguousMatch; otherwise the first match (the unique one when duplicates
are disallowed) is returned.  When the timeout elapses with still no match
the finder fails with ControlNotFound. -/
def findAux (scope : Nat → UIElement) (c : SearchCriteria) (timeout interval : Nat) :
    Nat → Nat → Except FindError UIElement
  | 0, k => Except.error (FindError.controlNotFound c (scope k) (k * interval))
  | fuel + 1, k =>
    if timeout ≤ k * interval then
      Except.error (FindError.controlNotFound c (scope k) (k * interval))
    else
      match findAllNow c (scope k) with
      | [] => findAux scope c timeout interval fuel (k + 1)
      | [e] => Except.ok e
      | e :: _ :: _ =>
        if c.allowDuplicates then Except.ok e
        else Except.error (FindError.ambiguousMatch (findAllNow c (scope k)).length c)

/-- Modelled from the spec: find(criteria) with retry-until-timeout. -/
def find (scope : Nat → UIElement) (c : SearchCriteria) (timeout interval : Nat) :
    Except FindError UIElement :=
  findAux scope c timeout interval (timeout + 1) 0

/-- Modelled from the spec: find_all(criteria) polls like find but returns all
matches of the first tick on which any element matches; zero results for the
whole window yield the empty sequence rather than a failure. -/
def findAllAux (scope : Nat → UIElement) (c : SearchCriteria) (timeout interval : Nat) :
    Nat → Nat → List UIElement
  | 0, _ => []
  | fuel + 1, k =>
    if timeout ≤ k * interval then []
    else
      match findAllNow c (scope k) with
      | [] => findAllAux scope c timeout interval fuel (k + 1)
      | l => l

/-- Modelled from the spec: find_all entry point. -/
def find_all (scope : Nat → UIElement) (c : SearchCriteria) (timeout interval : Nat) :
    List UIElement :=
  findAllAux scope c timeout interval (timeout + 1) 0

/-! ## Finder lemmas -/

/-- If no element ever matches, the retry loop ends in ControlNotFound
carrying the criteria and the scope, at an elapsed time past the timeout. -/
theorem findAux_notFound (scope : Nat → UIElement) (c : SearchCriteria)
    (timeout interval : Nat)
    (hempty : ∀ k, findAllNow c (scope k) = []) :
    ∀ fuel k, timeout ≤ (k + fuel) * interval →
      ∃ m, k ≤ m ∧ timeout ≤ m * interval ∧
        findAux scope c timeout interval fuel k
          = Except.error (FindError.controlNotFound c (scope m) (m * interval)) := by
  intro fuel
  induction fuel with
  | zero =>
    intro k hk
    refine ⟨k, le_refl k, ?_, rfl⟩
    simpa using hk
  | succ fuel ih =>
    intro k hk
    simp only [findAux]
    by_cases hto : timeout ≤ k * interval
    · exact ⟨k, le_refl k, hto, by simp [hto]⟩
    · have hrec : timeout ≤ (k + 1 + fuel) * interval := by
        have harith : k + 1 + fuel = k + (fuel + 1) := by omega
        rw [harith]; exact hk
      obtain ⟨m, hm1, hm2, hm3⟩ := ih (k + 1) hrec
      refine ⟨m, by omega, hm2, ?_⟩
      simp [hto, hempty k, hm3]

/-- If the criteria match nothing before tick `k` and exactly the element `x`
at tick `k`, inside the timeout window, the retry loop returns `x`. -/
theorem findAux_found (scope : Nat → UIElement) (c : SearchCriteria)
    (timeout interval : Nat) (k : Nat) (x : UIElement)
    (hbefore : ∀ j, j < k → findAllNow c (scope j) = [])
    (hk : findAllNow c (scope k) = [x])
    (hin : k * interval < timeout) :
    ∀ fuel k0, k0 ≤ k → k - k0 < fuel →
      findAux scope c timeout interval fuel k0 = Except.ok x := by
  intro fuel
  induction fuel with
  | zero => intro k0 _ hf; omega
  | succ fuel ih =>
    intro k0 hk0 hf
    have hmono : k0 * interval ≤ k * interval :=
      Nat.mul_le_mul hk0 (le_refl interval)
    have hto : ¬ timeout ≤ k0 * interval := by omega
    simp only [findAux]
    by_cases heq : k0 = k
    · subst heq
      simp [hto, hk]
    · have hlt : k0 < k := by omega
      simp only [hto, if_false, hbefore k0 hlt]
      exact ih (k0 + 1) (by omega) (by omega)

/-- Any element returned by the retry loop satisfies the criteria. -/
theorem findAux_ok_matches (scope : Nat → UIElement) (c : SearchCriteria)
    (timeout interval : Nat) :
    ∀ fuel k e, findAux scope c timeout interval fuel k = Except.ok e →
      uiMatches c e = true := by
  intro fuel
  induction fuel with
  | zero => intro k e h; simp [findAux] at h
  | succ fuel ih =>
    intro k e h
    simp only [findAux] at h
    by_cases hto : timeout ≤ k * interval
    · simp [hto] at h
    · rw [if_neg hto] at h
      rcases hsh : findAllNow c (scope k) with _ | ⟨a, _ | ⟨b, l⟩⟩ <;> rw [hsh] at h
      · exact ih (k + 1) e h
      · have hax : a ∈ findAllNow c (scope k) := by rw [hsh]; exact List.mem_singleton.mpr rfl
        have ham : uiMatches c a = true := List.of_mem_filter hax
        have hae : a = e := by simpa using h
        rw [← hae]; exact ham
      · by_cases hdup : c.allowDuplicates
        · have hax : a ∈ findAllNow c (scope k) := by rw [hsh]; exact List.mem_cons_self a _
          have ham : uiMatches c a = true := List.of_mem_filter hax
          have hae : a = e := by simpa [hdup] using h
          rw [← hae]; exact ham
        · simp [hdup] at h

/-- Any element in a find_all result satisfies the criteria. -/
theorem findAllAux_mem_matches (scope : Nat → UIElement) (c : SearchCriteria)
    (timeout interval : Nat) :
    ∀ fuel k e, e ∈ findAllAux scope c timeout interval fuel k →
      uiMatches c e = true := by
  intro fuel
  induction fuel with
  | zero => intro k e h; simp [findAllAux] at h
  | succ fuel ih =>
    intro k e h
    simp only [findAllAux] at h
    by_cases hto : timeout ≤ k * interval
    · simp [hto] at h
    · rw [if_neg hto] at h
      rcases hsh : findAllNow c (scope k) with _ | ⟨a, l⟩ <;> rw [hsh] at h
      · exact ih (k + 1) e h
      · have hex : e ∈ findAllNow c (scope k) := by rw [hsh]; exact h
        exact List.of_mem_filter hex

/-- When elements already match at tick 0 and the timeout is positive,
find_all returns exactly the tick-0 matches. -/
theorem find_all_at_zero (scope : Nat → UIElement) (c : SearchCriteria)
    (timeout interval : Nat) (hto : 0 < timeout)
    (hne : findAllNow c (scope 0) ≠ []) :
    find_all scope c timeout interval = findAllNow c (scope 0) := by
  have hcond : ¬ timeout ≤ 0 * interval := by simp only [Nat.zero_mul]; omega
  rcases hsh : findAllNow c (scope 0) with _ | ⟨a, l⟩
  · exact absurd hsh hne
  · simp only [find_all, findAllAux, hcond, if_false, hsh]

/-! ## Claim theorems: ConditionWaiter and ControlFinder -/

/-- C3: for every predicate and timeout given to ConditionWaiter, a predicate
becoming true after k in-window ticks makes the wait succeed; a predicate that
never returns true makes it fail with Timeout only after at least the timeout
elapsed; a predicate raising a transient "not found" condition every tick
behaves identically to one always returning false; and a non-transient error
propagates immediately, aborting the wait. -/
theorem conditionWaiter_spec (timeout interval : Nat) (hi : 1 ≤ interval) :
    (∀ (pred : Nat → TickResult) (k : Nat),
        (∀ j, j < k → pred j = TickResult.pfalse ∨ pred j = TickResult.transientErr) →
        pred k = TickResult.ptrue → k * interval < timeout →
        waitFor pred timeout interval = WaitOutcome.success (k * interval))
    ∧ (∀ pred : Nat → TickResult,
        (∀ j, pred j = TickResult.pfalse ∨ pred j = TickResult.transientErr) →
        ∃ e, timeout ≤ e ∧ waitFor pred timeout interval = WaitOutcome.timedOut e)
    ∧ (waitFor (fun _ => TickResult.transientErr) timeout interval
        = waitFor (fun _ => TickResult.pfalse) timeout interval)
    ∧ (∀ (pred : Nat → TickResult) (k : Nat),
        (∀ j, j < k → pred j = TickResult.pfalse ∨ pred j = TickResult.transientErr) →
        pred k = TickResult.fatalErr → k * interval < timeout →
        waitFor pred timeout interval = WaitOutcome.fatal (k * interval)) := by
  refine ⟨?_, ?_, ?_, ?_⟩
  · intro pred k hbefore hk hin
    have h1 : k * 1 ≤ k * interval := Nat.mul_le_mul (le_refl k) hi
    rw [Nat.mul_one] at h1
    exact waitAux_success pred timeout interval k hbefore hk hin
      (timeout + 1) 0 (Nat.zero_le k) (by omega)
  · intro pred hpred
    have h1 : (timeout + 1) * 1 ≤ (timeout + 1) * interval :=
      Nat.mul_le_mul (le_refl (timeout + 1)) hi
    rw [Nat.mul_one] at h1
    have hfuel : timeout ≤ (0 + (timeout + 1)) * interval := by
      rw [Nat.zero_add]; omega
    obtain ⟨m, _, hm2, hm3⟩ := waitAux_timeout pred timeout interval hpred (timeout + 1) 0 hfuel
    exact ⟨m * interval, hm2, hm3⟩
  · exact waitAux_transient_eq_false timeout interval (timeout + 1) 0
  · intro pred k hbefore hk hin
    have h1 : k * 1 ≤ k * interval := Nat.mul_le_mul (le_refl k) hi
    rw [Nat.mul_one] at h1
    exact waitAux_fatal pred timeout interval k hbefore hk hin
      (timeout + 1) 0 (Nat.zero_le k) (by omega)

/-- Witness for C3: concrete predicates at timeout 5, interval 1 — true after
two false ticks succeeds at elapsed 2; always-false times out no earlier than
5; always-transient is indistinguishable from always-false; a fatal error on
tick 1 aborts at elapsed 1. -/
theorem conditionWaiter_spec_witness :
    waitFor (fun j => if j < 2 then TickResult.pfalse else TickResult.ptrue) 5 1
      = WaitOutcome.success 2
    ∧ (∃ e, 5 ≤ e ∧ waitFor (fun _ => TickResult.pfalse) 5 1 = WaitOutcome.timedOut e)
    ∧ waitFor (fun _ => TickResult.transientErr) 5 1
        = waitFor (fun _ => TickResult.pfalse) 5 1
    ∧ waitFor (fun j => if j < 1 then TickResult.transientErr else TickResult.fatalErr) 5 1
      = WaitOutcome.fatal 1 := by
  obtain ⟨hs, ht, htr, hf⟩ := conditionWaiter_spec 5 1 (by decide)
  refine ⟨?_, ht (fun _ => TickResult.pfalse) (fun j => Or.inl rfl), htr, ?_⟩
  · have := hs (fun j => if j < 2 then TickResult.pfalse else TickResult.ptrue) 2
      (fun j hj => Or.inl (by simp [hj])) (by simp) (by decide)
    simpa using this
  · have := hf (fun j => if j < 1 then TickResult.transientErr else TickResult.fatalErr) 1
      (fun j hj => Or.inr (by simp [hj])) (by simp) (by decide)
    simpa using this

/-- C1: search criteria matching zero elements at query time do not fail
immediately — if they match an element at a later in-window tick, find
returns it; only when the criteria match zero elements for the entire window
does find fail, with ControlNotFound carrying the criteria and scope, after
at least the timeout has elapsed. -/
theorem find_zero_matches_spec (scope : Nat → UIElement) (c : SearchCriteria)
    (timeout interval : Nat) (hi : 1 ≤ interval) :
    ((∀ k, findAllNow c (scope k) = []) →
      ∃ m, timeout ≤ m * interval ∧
        find scope c timeout interval
          = Except.error (FindError.controlNotFound c (scope m) (m * interval)))
    ∧ (∀ (k : Nat) (x : UIElement),
        (∀ j, j < k → findAllNow c (scope j) = []) →
        findAllNow c (scope k) = [x] → k * interval < timeout →
        find scope c timeout interval = Except.ok x) := by
  constructor
  · intro hempty
    have h1 : (timeout + 1) * 1 ≤ (timeout + 1) * interval :=
      Nat.mul_le_mul (le_refl (timeout + 1)) hi
    rw [Nat.mul_one] at h1
    have hfuel : timeout ≤ (0 + (timeout + 1)) * interval := by
      rw [Nat.zero_add]; omega
    obtain ⟨m, _, hm2, hm3⟩ :=
      findAux_notFound scope c timeout interval hempty (timeout + 1) 0 hfuel
    exact ⟨m, hm2, hm3⟩
  · intro k x hbefore hk hin
    have h1 : k * 1 ≤ k * interval := Nat.mul_le_mul (le_refl k) hi
    rw [Nat.mul_one] at h1
    exact findAux_found scope c timeout interval k x hbefore hk hin
      (timeout + 1) 0 (Nat.zero_le k) (by omega)

/-- A sample control: the Functions tab item. -/
def tabFunctions : UIElement := UIElement.node "TabItem" "Functions" []

/-- A sample main window with no children. -/
def emptyWindow : UIElement := UIElement.node "Window" "OrbitMainWindow" []

/-- A scope that never contains the sought control. -/
def alwaysEmptyScope (_ : Nat) : UIElement := emptyWindow

/-- A scope in which the sought control materializes from tick 1 on. -/
def lateScope (k : Nat) : UIElement :=
  if k = 0 then emptyWindow
  else UIElement.node "Window" "OrbitMainWindow" [tabFunctions]

/-- Criteria for the Functions tab item among direct children. -/
def tabCriteria : SearchCriteria :=
  { ctype := some "TabItem", nameExact := some "Functions", nameContains := none,
    namePatterns := [], recurse := false, allowDuplicates := false }

/-- Witness for C1: with timeout 3 and interval 1, a never-matching scope
yields ControlNotFound carrying the criteria and scope no earlier than the
timeout, and a control appearing at tick 1 is found successfully. -/
theorem find_zero_matches_spec_witness :
    (∃ m, 3 ≤ m * 1 ∧
      find alwaysEmptyScope tabCriteria 3 1
        = Except.error (FindError.controlNotFound tabCriteria (alwaysEmptyScope m) (m * 1)))
    ∧ find lateScope tabCriteria 3 1 = Except.ok tabFunctions := by
  obtain ⟨h1, _⟩ := find_zero_matches_spec alwaysEmptyScope tabCriteria 3 1 (by decide)
  obtain ⟨_, h4⟩ := find_zero_matches_spec lateScope tabCriteria 3 1 (by decide)
  constructor
  · exact h1 (fun k => rfl)
  · refine h4 1 tabFunctions (fun j hj => ?_) rfl (by decide)
    interval_cases j
    rfl

/-- C2: when the criteria match N>1 live elements and duplicates are not
allowed, find fails with AmbiguousMatch naming the count and the criteria;
with duplicates allowed, find_all returns all N matching elements in tree
order (a sublist of the tree-order candidate enumeration, containing every
matching candidate and nothing else). -/
theorem find_multi_spec (scope : Nat → UIElement) (c : SearchCriteria)
    (timeout interval N : Nat) (hto : 0 < timeout) (hN : 1 < N)
    (hlen : (findAllNow c (scope 0)).length = N) :
    (c.allowDuplicates = false →
      find scope c timeout interval = Except.error (FindError.ambiguousMatch N c))
    ∧ (c.allowDuplicates = true →
        find_all scope c timeout interval = findAllNow c (scope 0)
        ∧ (find_all scope c timeout interval).length = N
        ∧ (find_all scope c timeout interval).Sublist (candidates c (scope 0))
        ∧ (∀ e ∈ find_all scope c timeout interval, uiMatches c e = true)
        ∧ (∀ e, e ∈ candidates c (scope 0) → uiMatches c e = true →
            e ∈ find_all scope c timeout interval)) := by
  have hcond : ¬ timeout ≤ 0 * interval := by simp only [Nat.zero_mul]; omega
  rcases hsh : findAllNow c (scope 0) with _ | ⟨a, _ | ⟨b, l⟩⟩
  · rw [hsh] at hlen; simp at hlen; omega
  · rw [hsh] at hlen; simp at hlen; omega
  · have hne : findAllNow c (scope 0) ≠ [] := by rw [hsh]; simp
    have hfa : find_all scope c timeout interval = findAllNow c (scope 0) :=
      find_all_at_zero scope c timeout interval hto hne
    constructor
    · intro hdup
      rw [hsh] at hlen
      have htne : ¬ timeout = 0 := by omega
      simp [find, findAux, hcond, hsh, hdup, hlen, htne]
    · intro _
      refine ⟨hfa.trans hsh, by rw [hfa]; exact hlen, ?_, ?_, ?_⟩
      · rw [hfa]; unfold findAllNow; exact List.filter_sublist _
      · intro e he
        rw [hfa] at he
        unfold findAllNow at he
        exact List.of_mem_filter he
      · intro e hec hem
        rw [hfa]
        unfold findAllNow
        exact List.mem_filter.mpr ⟨hec, hem⟩

/-- A sample duplicated control. -/
def tabX : UIElement := UIElement.node "Tab" "X" []

/-- A scope whose window always contains two identically-named Tab controls. -/
def dupScope (_ : Nat) : UIElement := UIElement.node "Window" "W" [tabX, tabX]

/-- Criteria matching both duplicates, duplicates disallowed. -/
def dupCriteriaStrict : SearchCriteria :=
  { ctype := some "Tab", nameExact := some "X", nameContains := none,
    namePatterns := [], recurse := false, allowDuplicates := false }

/-- Criteria matching both duplicates, duplicates allowed. -/
def dupCriteriaLoose : SearchCriteria :=
  { ctype := some "Tab", nameExact := some "X", nameContains := none,
    namePatterns := [], recurse := false, allowDuplicates := true }

/-- Witness for C2: two matching Tab controls; with duplicates disallowed
find reports AmbiguousMatch with count 2 and the criteria, and with
duplicates allowed find_all returns both in tree order. -/
theorem find_multi_spec_witness :
    find dupScope dupCriteriaStrict 3 1
      = Except.error (FindError.ambiguousMatch 2 dupCriteriaStrict)
    ∧ find_all dupScope dupCriteriaLoose 3 1 = [tabX, tabX]
    ∧ (find_all dupScope dupCriteriaLoose 3 1).length = 2 := by
  obtain ⟨hstrict, _⟩ :=
    find_multi_spec dupScope dupCriteriaStrict 3 1 2 (by decide) (by decide) rfl
  obtain ⟨_, hloose⟩ :=
    find_multi_spec dupScope dupCriteriaLoose 3 1 2 (by decide) (by decide) rfl
  obtain ⟨heq, hlen2, _, _, _⟩ := hloose rfl
  exact ⟨hstrict rfl, heq, hlen2⟩

/-! ## ExpectationRecorder -/

/-- One Expectation Record: a human-readable description and the boolean
outcome of the check; never mutated after creation. -/
structure ExpectationRecord where
  description : String
  outcome : Bool
deriving DecidableEq, Repr

/-- Modelled from the spec: the ExpectationRecorder of core.orbit_e2e (the
expect_true / expect_eq soft-assertion sink) is absent from the visible
sources.  It owns the append-only ordered sequence of Expectation Records. -/
structure ExpectationRecorder where
  records : List ExpectationRecord
deriving DecidableEq, Repr

/-- Modelled from the spec: record(description, outcome) appends one record
regardless of the outcome and returns the outcome for caller convenience; it
is a total function — a failing outcome does not throw. -/
def ExpectationRecorder.record (r : ExpectationRecorder) (desc : String)
    (outcome : Bool) : ExpectationRecorder × Bool :=
  ({ records := r.records ++ [⟨desc, outcome⟩] }, outcome)

/-- Record a whole sequence of named outcomes in call order. -/
def recordAll (r : ExpectationRecorder) : List (String × Bool) → ExpectationRecorder
  | [] => r
  | (d, o) :: rest => recordAll (r.record d o).1 rest

/-- Whether any recorded expectation failed. -/
def ExpectationRecorder.hasFailures (r : ExpectationRecorder) : Bool :=
  r.records.any (fun rec => !rec.outcome)

/-- The hard-stop escalation signal. -/
inductive AssertError where
  | assertionFailure
deriving DecidableEq, Repr

/-- Modelled from the spec: assert_no_failures escalates to a hard stop
exactly when some recorded outcome is false. -/
def assert_no_failures (r : ExpectationRecorder) : Except AssertError Unit :=
  if r.hasFailures then Except.error AssertError.assertionFailure else Except.ok ()

/-- Auxiliary: recordAll appends the new records after the existing ones. -/
theorem recordAll_records (xs : List (String × Bool)) :
    ∀ r : ExpectationRecorder,
      (recordAll r xs).records
        = r.records ++ xs.map (fun p => ExpectationRecord.mk p.1 p.2) := by
  induction xs with
  | nil => intro r; simp [recordAll]
  | cons p rest ih =>
    intro r
    obtain ⟨d, o⟩ := p
    simp [recordAll, ExpectationRecorder.record, ih]

/-- C5: recording N outcomes (any mix of pass and fail) yields exactly N
Expectation Records, in call order; each record call is total and returns its
outcome (never throws); and assert_no_failures raises if and only if at least
one recorded outcome is false. -/
theorem expectationRecorder_spec (xs : List (String × Bool)) :
    (recordAll ⟨[]⟩ xs).records = xs.map (fun p => ExpectationRecord.mk p.1 p.2)
    ∧ (recordAll ⟨[]⟩ xs).records.length = xs.length
    ∧ (∀ (r : ExpectationRecorder) (d : String) (o : Bool), (r.record d o).2 = o)
    ∧ (assert_no_failures (recordAll ⟨[]⟩ xs) = Except.error AssertError.assertionFailure
        ↔ ∃ p ∈ xs, p.2 = false) := by
  have hrec : (recordAll ⟨[]⟩ xs).records
      = xs.map (fun p => ExpectationRecord.mk p.1 p.2) := by
    simpa using recordAll_records xs ⟨[]⟩
  refine ⟨hrec, by rw [hrec]; simp, fun r d o => rfl, ?_⟩
  have hkey : (xs.map (fun p => ExpectationRecord.mk p.1 p.2)).any
      (fun rec => !rec.outcome) = true ↔ ∃ p ∈ xs, p.2 = false := by
    rw [List.any_eq_true]
    constructor
    · rintro ⟨a, ha, hao⟩
      rw [List.mem_map] at ha
      obtain ⟨p, hp, hpe⟩ := ha
      refine ⟨p, hp, ?_⟩
      rw [← hpe] at hao
      simpa using hao
    · rintro ⟨p, hp, hpo⟩
      exact ⟨⟨p.1, p.2⟩, List.mem_map_of_mem _ hp, by simp [hpo]⟩
  unfold assert_no_failures ExpectationRecorder.hasFailures
  rw [hrec]
  by_cases hb : (xs.map (fun p => ExpectationRecord.mk p.1 p.2)).any
      (fun rec => !rec.outcome) = true
  · rw [if_pos hb]
    exact iff_of_true rfl (hkey.mp hb)
  · have hb2 : ¬ ∃ p ∈ xs, p.2 = false := fun hc => hb (hkey.mpr hc)
    rw [if_neg hb]
    exact iff_of_false (by simp) hb2

/-- Witness for C5: a concrete mixed pass/fail sequence yields three ordered
records and a raising assert_no_failures. -/
theorem expectationRecorder_spec_witness :
    (recordAll ⟨[]⟩ [("a", true), ("b", false), ("c", true)]).records
      = [⟨"a", true⟩, ⟨"b", false⟩, ⟨"c", true⟩]
    ∧ (recordAll ⟨[]⟩ [("a", true), ("b", false), ("c", true)]).records.length = 3
    ∧ assert_no_failures (recordAll ⟨[]⟩ [("a", true), ("b", false), ("c", true)])
        = Except.error AssertError.assertionFailure := by
  obtain ⟨h1, h2, _, h4⟩ :=
    expectationRecorder_spec [("a", true), ("b", false), ("c", true)]
  refine ⟨by simpa using h1, h2, ?_⟩
  exact h4.mpr ⟨("b", false), by simp, rfl⟩

/-! ## TestSuite -/

/-- Terminal status of one test case in the aggregate report. -/
inductive CaseStatus where
  | passed
  | failed
  | errored
  | notRun
deriving DecidableEq, Repr

/-- Abstract behaviour of one test case when executed: it either completes
(with or without failed soft expectations) or raises an unhandled error. -/
inductive CaseBehavior where
  | completes (hasFailedExpectation : Bool)
  | raisesUnhandled
deriving DecidableEq, Repr

/-- Terminal status a single executed case derives from its behaviour:
a failed recorded expectation yields failed, an unhandled exception yields
errored, otherwise passed. -/
def statusOf : CaseBehavior → CaseStatus
  | CaseBehavior.completes true => CaseStatus.failed
  | CaseBehavior.completes false => CaseStatus.passed
  | CaseBehavior.raisesUnhandled => CaseStatus.errored

/-- Modelled from the spec: core.orbit_e2e.E2ETestSuite's sequential case
execution is absent from the visible sources.  Cases run strictly in order;
an unhandled error in one case marks it errored and aborts the remaining
cases, which are reported as not-run rather than silently omitted. -/
def runCases : List CaseBehavior → List CaseStatus
  | [] => []
  | b :: rest =>
    match b with
    | CaseBehavior.raisesUnhandled =>
      CaseStatus.errored :: rest.map (fun _ => CaseStatus.notRun)
    | CaseBehavior.completes f =>
      statusOf (CaseBehavior.completes f) :: runCases rest

/-- States of the suite's lifecycle state machine. -/
inductive SuiteState where
  | idle
  | launching
  | running (i : Nat)
  | tearingDown
  | done
deriving DecidableEq, Repr

/-- The Running(i) states actually visited: one per case executed in order,
cut short right after the first case that raises an unhandled error. -/
def runningTrace : Nat → List CaseBehavior → List SuiteState
  | _, [] => []
  | i, b :: rest =>
    SuiteState.running i ::
      match b with
      | CaseBehavior.raisesUnhandled => []
      | CaseBehavior.completes _ => runningTrace (i + 1) rest

/-- Modelled from the spec: the suite's state trace — Idle, Launching, the
Running(i) states (none when the launch fails), then always Tearing Down and
only then Done. -/
def suiteTrace (launchOk : Bool) (cs : List CaseBehavior) : List SuiteState :=
  SuiteState.idle :: SuiteState.launching ::
    ((if launchOk then runningTrace 0 cs else []) ++
      [SuiteState.tearingDown, SuiteState.done])

/-- A legal transition never moves from a Running state directly to Done. -/
def stepOk (a b : SuiteState) : Prop :=
  ¬(b = SuiteState.done ∧ ∃ j, a = SuiteState.running j)

/-- Every state in a running trace is a Running state. -/
theorem runningTrace_mem (cs : List CaseBehavior) :
    ∀ i s, s ∈ runningTrace i cs → ∃ j, s = SuiteState.running j := by
  induction cs with
  | nil => intro i s h; simp [runningTrace] at h
  | cons b rest ih =>
    intro i s h
    simp only [runningTrace] at h
    rcases List.mem_cons.mp h with h1 | h2
    · exact ⟨i, h1⟩
    · cases b with
      | raisesUnhandled => simp at h2
      | completes f => exact ih (i + 1) s h2

/-- Any transition into a state other than Done is legal. -/
theorem stepOk_of_ne (a b : SuiteState) (hb : b ≠ SuiteState.done) : stepOk a b :=
  fun hc => hb hc.1

/-- A list of non-Done states followed by Tearing Down and Done forms a legal
transition chain. -/
theorem chain_tearing (l : List SuiteState)
    (hl : ∀ s ∈ l, ∃ j, s = SuiteState.running j) :
    List.Chain' stepOk (l ++ [SuiteState.tearingDown, SuiteState.done]) := by
  induction l with
  | nil =>
    refine List.chain'_cons.mpr ⟨?_, List.chain'_singleton _⟩
    rintro ⟨_, j, hj⟩
    cases hj
  | cons a l ih =>
    have hrest := ih (fun s hs => hl s (List.mem_cons_of_mem a hs))
    rcases l with _ | ⟨b, l2⟩
    · refine List.chain'_cons.mpr ⟨?_, hrest⟩
      exact stepOk_of_ne _ _ (by simp)
    · refine List.chain'_cons.mpr ⟨?_, hrest⟩
      obtain ⟨j, hj⟩ := hl b (by simp)
      rw [hj]
      exact stepOk_of_ne _ _ (by simp)

/-- The statuses report has one entry per configured case. -/
theorem runCases_length (cs : List CaseBehavior) :
    (runCases cs).length = cs.length := by
  induction cs with
  | nil => rfl
  | cons b rest ih =>
    cases b with
    | raisesUnhandled => simp [runCases]
    | completes f => simp [runCases, ih]


/-- The first case that raises an unhandled error (all earlier cases
completing) is reported errored. -/
theorem runCases_get_errored : ∀ (cs : List CaseBehavior) (i : Nat),
    cs.get? i = some CaseBehavior.raisesUnhandled →
    (∀ j, j < i → ∃ f, cs.get? j = some (CaseBehavior.completes f)) →
    (runCases cs).get? i = some CaseStatus.errored := by
  intro cs
  induction cs with
  | nil => intro i hi _; simp at hi
  | cons b rest ih =>
    intro i hi hbefore
    cases i with
    | zero =>
      have hb : b = CaseBehavior.raisesUnhandled := by simpa using hi
      subst hb
      rfl
    | succ i2 =>
      obtain ⟨f, hf⟩ := hbefore 0 (by omega)
      have hb : b = CaseBehavior.completes f := by simpa using hf
      subst hb
      simp only [runCases, List.get?_cons_succ]
      refine ih i2 (by simpa using hi) ?_
      intro j hj
      have hshift := hbefore (j + 1) (by omega)
      simpa using hshift

/-- Every case after the first unhandled error is reported not-run. -/
theorem runCases_get_notRun : ∀ (cs : List CaseBehavior) (i : Nat),
    cs.get? i = some CaseBehavior.raisesUnhandled →
    (∀ j, j < i → ∃ f, cs.get? j = some (CaseBehavior.completes f)) →
    ∀ j, i < j → j < cs.length → (runCases cs).get? j = some CaseStatus.notRun := by
  intro cs
  induction cs with
  | nil => intro i hi; simp at hi
  | cons b rest ih =>
    intro i hi hbefore j hij hj
    cases i with
    | zero =>
      have hb : b = CaseBehavior.raisesUnhandled := by simpa using hi
      subst hb
      cases j with
      | zero => omega
      | succ j2 =>
        have hlt : j2 < rest.length := by
          simp only [List.length_cons] at hj
          omega
        simp only [runCases, List.get?_cons_succ]
        rw [List.get?_map, List.get?_eq_get hlt]
        rfl
    | succ i2 =>
      obtain ⟨f, hf⟩ := hbefore 0 (by omega)
      have hb : b = CaseBehavior.completes f := by simpa using hf
      subst hb
      cases j with
      | zero => omega
      | succ j2 =>
        have hlt : j2 < rest.length := by
          simp only [List.length_cons] at hj
          omega
        simp only [runCases, List.get?_cons_succ]
        refine ih i2 (by simpa using hi) ?_ j2 (by omega) hlt
        intro j3 hj3
        have hshift := hbefore (j3 + 1) (by omega)
        simpa using hshift

/-- C4: a hard (unhandled) failure in case i — all earlier cases completing —
marks case i errored and every later case not-run (skipped, still reported);
the suite still reaches Tearing Down, and no suite trace ever steps from a
Running state directly to Done. -/
theorem suite_abort_spec (cs : List CaseBehavior) (i : Nat)
    (hi : cs.get? i = some CaseBehavior.raisesUnhandled)
    (hbefore : ∀ j, j < i → ∃ f, cs.get? j = some (CaseBehavior.completes f)) :
    (runCases cs).get? i = some CaseStatus.errored
    ∧ (∀ j, i < j → j < cs.length → (runCases cs).get? j = some CaseStatus.notRun)
    ∧ SuiteState.tearingDown ∈ suiteTrace true cs
    ∧ (∀ (launchOk : Bool) (cs2 : List CaseBehavior),
        List.Chain' stepOk (suiteTrace launchOk cs2)) := by
  refine ⟨runCases_get_errored cs i hi hbefore,
    runCases_get_notRun cs i hi hbefore, by simp [suiteTrace], ?_⟩
  intro launchOk cs2
  have hchain :
      List.Chain' stepOk
        ((if launchOk then runningTrace 0 cs2 else []) ++
          [SuiteState.tearingDown, SuiteState.done]) := by
    cases launchOk with
    | false => simpa using chain_tearing [] (by simp)
    | true =>
      simpa using chain_tearing (runningTrace 0 cs2) (runningTrace_mem cs2 0)
  unfold suiteTrace
  refine List.chain'_cons'.mpr ⟨?_, List.chain'_cons'.mpr ⟨?_, hchain⟩⟩
  · intro b hb
    simp only [List.head?_cons, Option.mem_def, Option.some.injEq] at hb
    rw [← hb]
    exact stepOk_of_ne _ _ (by simp)
  · intro b hb
    refine stepOk_of_ne _ _ ?_
    rintro rfl
    cases launchOk with
    | false => simp at hb
    | true =>
      cases cs2 with
      | nil => simp [runningTrace] at hb
      | cons c rest => simp [runningTrace] at hb

/-- Witness for C4: three cases where case 1 raises — case 0 passed, case 1
errored, case 2 not-run, Tearing Down reached, and no Running-to-Done step. -/
theorem suite_abort_spec_witness :
    (runCases [CaseBehavior.completes false, CaseBehavior.raisesUnhandled,
        CaseBehavior.completes false]).get? 1 = some CaseStatus.errored
    ∧ (runCases [CaseBehavior.completes false, CaseBehavior.raisesUnhandled,
        CaseBehavior.completes false]).get? 2 = some CaseStatus.notRun
    ∧ SuiteState.tearingDown ∈ suiteTrace true [CaseBehavior.completes false,
        CaseBehavior.raisesUnhandled, CaseBehavior.completes false]
    ∧ List.Chain' stepOk (suiteTrace true [CaseBehavior.completes false,
        CaseBehavior.raisesUnhandled, CaseBehavior.completes false]) := by
  obtain ⟨h1, h2, h3, h4⟩ := suite_abort_spec
    [CaseBehavior.completes false, CaseBehavior.raisesUnhandled,
      CaseBehavior.completes false] 1 rfl
    (fun j hj => by interval_cases j; exact ⟨false, rfl⟩)
  exact ⟨h1, h2 2 (by decide) (by decide), h3,
    h4 true [CaseBehavior.completes false, CaseBehavior.raisesUnhandled,
      CaseBehavior.completes false]⟩

/-- Modelled from the spec: the process exit status of a completed suite run —
non-zero when the launch/attach failed, non-zero when any case's terminal
status is failed or errored, and zero otherwise. -/
def suiteExitStatus (launchOk : Bool) (cs : List CaseBehavior) : Nat :=
  if launchOk then
    if (runCases cs).any
        (fun s => s == CaseStatus.failed || s == CaseStatus.errored) then 1 else 0
  else 1

/-- C6: the exit status is 0 if and only if the launch succeeded and every
executed case's terminal status is passed (skipped not-run entries aside);
equivalently it is non-zero when any case failed or errored or the launch
failed. -/
theorem suite_exit_spec (launchOk : Bool) (cs : List CaseBehavior) :
    suiteExitStatus launchOk cs = 0
      ↔ (launchOk = true
          ∧ ∀ s ∈ runCases cs, s ≠ CaseStatus.notRun → s = CaseStatus.passed) := by
  cases launchOk with
  | false => simp [suiteExitStatus]
  | true =>
    simp only [suiteExitStatus, if_true, true_and]
    by_cases hany : (runCases cs).any
        (fun s => s == CaseStatus.failed || s == CaseStatus.errored) = true
    · rw [if_pos hany]
      rw [List.any_eq_true] at hany
      obtain ⟨s, hs, hbad⟩ := hany
      refine iff_of_false (by omega) ?_
      intro hall
      cases s <;> simp at hbad <;>
        · have := hall _ hs
          simp at this
    · rw [if_neg hany]
      refine iff_of_true rfl ?_
      intro s hs _
      by_contra hne
      apply hany
      rw [List.any_eq_true]
      refine ⟨s, hs, ?_⟩
      cases s <;> simp_all

/-! ## Embedded test-case code: test_cases/main_window.py -/

/-- One UI lookup issued by the embedded test-case code: whether it resolves
its target by best-match name similarity, and whether it acquires a top-level
window of the application (as opposed to an ordinary element search inside
one). -/
structure UIQuery where
  isBestMatch : Bool
  isTopLevelWindowLookup : Bool
deriving DecidableEq, Repr

/-- The UI lookups of test_cases/main_window.py in program order.
MoveTab.right_click_move_context: application.window(best_match=
"TabBarContextMenu") resolves a top-level window of the application by
best-match, then find_control(MenuItem, name_contains="Move") is an ordinary
search inside it.  MoveTab._execute issues nine ordinary find_control
searches (tab item, the two tab-widget groups and their tab bars, the
re-found tab item and the content group after each move).
EndSession._execute uses suite.top_window(), application.top_window() inside
the wait predicate, and suite.top_window(force_update=True) — top-level
window acquisitions, none by best-match. -/
def mainWindowQueries : List UIQuery :=
  [ ⟨true, true⟩,
    ⟨false, false⟩,
    ⟨false, false⟩, ⟨false, false⟩, ⟨false, false⟩, ⟨false, false⟩,
    ⟨false, false⟩, ⟨false, false⟩, ⟨false, false⟩, ⟨false, false⟩,
    ⟨false, false⟩,
    ⟨false, true⟩, ⟨false, true⟩, ⟨false, true⟩ ]

/-- C7: the best-match (name-similarity) fallback is used only to acquire a
top-level window — every best-match lookup in the embedded test-case code is
a top-level window acquisition, and the modelled ordinary element search
(find / find_all) only ever resolves elements that actually satisfy the
search criteria, never by mere name similarity. -/
theorem bestMatch_top_level_only :
    (∀ q ∈ mainWindowQueries, q.isBestMatch = true → q.isTopLevelWindowLookup = true)
    ∧ (∀ (scope : Nat → UIElement) (c : SearchCriteria) (timeout interval : Nat)
        (e : UIElement), find scope c timeout interval = Except.ok e →
          uiMatches c e = true)
    ∧ (∀ (scope : Nat → UIElement) (c : SearchCriteria) (timeout interval : Nat)
        (e : UIElement), e ∈ find_all scope c timeout interval →
          uiMatches c e = true) := by
  refine ⟨by decide, ?_, ?_⟩
  · intro scope c timeout interval e h
    exact findAux_ok_matches scope c timeout interval (timeout + 1) 0 e h
  · intro scope c timeout interval e h
    exact findAllAux_mem_matches scope c timeout interval (timeout + 1) 0 e h

/-- Witness for C7: the sole best-match query is a top-level window lookup,
and a concretely resolved element satisfies its criteria. -/
theorem bestMatch_top_level_only_witness :
    (UIQuery.mk true true).isTopLevelWindowLookup = true
    ∧ uiMatches tabCriteria tabFunctions = true := by
  obtain ⟨h1, h2, _⟩ := bestMatch_top_level_only
  exact ⟨h1 ⟨true, true⟩ (by decide) rfl,
    h2 lateScope tabCriteria 3 1 tabFunctions rfl⟩

/-- One step of EndSession._execute, in program order.  queryTopWindowDesc
reads through the suite's cached top-window handle; clickMenuItem
"File->End Session" is the operation known to replace the top-level window;
waitForTopWindowClass polls application.top_window() afresh on every tick
(not the cached handle); rebindTopWindow is suite.top_window(force_update=
True), re-resolving the cached handle. -/
inductive SessionAction where
  | sleepSeconds (n : Nat)
  | queryTopWindowDesc
  | clickMenuItem (path : String)
  | waitForTopWindowClass (cls : String) (timeout : Nat)
  | rebindTopWindow
deriving DecidableEq, Repr

/-- EndSession._execute as its ordered list of actions (main_window.py lines
80-86). -/
def endSessionActions : List SessionAction :=
  [ SessionAction.sleepSeconds 1,
    SessionAction.queryTopWindowDesc,
    SessionAction.clickMenuItem "File->End Session",
    SessionAction.waitForTopWindowClass "orbit_session_setup::SessionSetupDialog" 30,
    SessionAction.rebindTopWindow ]

/-- Whether an action issues a query through the suite's cached top-level
window handle. -/
def usesCachedTopWindow : SessionAction → Bool
  | SessionAction.queryTopWindowDesc => true
  | _ => false

/-- Whether an action is known to replace the application's top-level
window. -/
def replacesTopWindow : SessionAction → Bool
  | SessionAction.clickMenuItem p => p == "File->End Session"
  | _ => false

/-- In a suffix of the action list, the cached-handle rebind happens before
any query through the cached handle. -/
def rebindBeforeCachedQuery : List SessionAction → Bool
  | [] => true
  | a :: rest =>
    if a = SessionAction.rebindTopWindow then true
    else if usesCachedTopWindow a then false
    else rebindBeforeCachedQuery rest

/-- After every action that replaces the top-level window, the rebind comes
before any further query through the cached handle. -/
def noStaleQueryAfterReplace : List SessionAction → Bool
  | [] => true
  | a :: rest =>
    (if replacesTopWindow a then rebindBeforeCachedQuery rest else true)
    && noStaleQueryAfterReplace rest

/-- C8: in EndSession._execute, after the End Session click (the operation
known to replace the top-level window, at index 2) the cached top-window
handle is re-resolved (rebindTopWindow, at index 4, the final action) before
any subsequent query through the cached handle is issued. -/
theorem endSession_rebind_spec :
    noStaleQueryAfterReplace endSessionActions = true
    ∧ endSessionActions.get? 2 = some (SessionAction.clickMenuItem "File->End Session")
    ∧ replacesTopWindow (SessionAction.clickMenuItem "File->End Session") = true
    ∧ endSessionActions.get? 4 = some SessionAction.rebindTopWindow
    ∧ endSessionActions.length = 5 := by
  refine ⟨rfl, rfl, ?_, rfl, rfl⟩
  decide

/-- EndSession._execute line 81: app_menu = suite.top_window().descendants(
control_type="MenuBar")[1] — an unconditional index 1 into the MenuBar
descendants; in Python, indexing past the end raises IndexError. -/
def endSessionMenuBarPick (menuBars : List UIElement) : Except String UIElement :=
  match menuBars.get? 1 with
  | some e => Except.ok e
  | none => Except.error "IndexError: list index out of range"

/-- EndSession._execute contains no expect_true or expect_eq call: the case
records no soft expectations at all. -/
def endSessionRecordedExpectations : List ExpectationRecord := []

/-- C9: with fewer than two MenuBar descendants the unconditional [1] index
raises (an error, so the case is errored), and no soft expectation failure is
recorded instead. -/
theorem endSession_menuBar_index_spec (mbs : List UIElement) (h : mbs.length < 2) :
    endSessionMenuBarPick mbs = Except.error "IndexError: list index out of range"
    ∧ endSessionRecordedExpectations = []
    ∧ statusOf CaseBehavior.raisesUnhandled = CaseStatus.errored := by
  have hg : mbs.get? 1 = none := List.get?_eq_none.mpr (by omega)
  refine ⟨?_, rfl, rfl⟩
  unfold endSessionMenuBarPick
  rw [hg]

/-- Witness for C9: a top window exposing a single MenuBar descendant. -/
theorem endSession_menuBar_index_spec_witness :
    endSessionMenuBarPick [emptyWindow]
        = Except.error "IndexError: list index out of range"
    ∧ endSessionRecordedExpectations = []
    ∧ statusOf CaseBehavior.raisesUnhandled = CaseStatus.errored :=
  endSession_menuBar_index_spec [emptyWindow] (by decide)

/-- Which pane a tab lives in. -/
inductive Pane where
  | left
  | right
deriving DecidableEq, Repr

/-- The state MoveTab acts on: the tab titles under the left (MainTabWidget)
and right (RightTabWidget) tab bars. -/
structure TabWorld where
  leftTabs : List String
  rightTabs : List String
deriving DecidableEq, Repr

/-- The pane owning the named tab, i.e. the tab item's parent tab bar. -/
def TabWorld.tabPane (w : TabWorld) (title : String) : Option Pane :=
  if title ∈ w.rightTabs then some Pane.right
  else if title ∈ w.leftTabs then some Pane.left
  else none

/-- Modelled from the spec and MoveTab's docstring ("Move a tab from the
right widget to the left, and back again"): the effect of
right_click_move_context's Move command — the tab leaves its current tab bar
and joins the opposite one. -/
def moveTabCommand (w : TabWorld) (title : String) : TabWorld :=
  if title ∈ w.rightTabs then
    { leftTabs := w.leftTabs ++ [title], rightTabs := w.rightTabs.erase title }
  else if title ∈ w.leftTabs then
    { leftTabs := w.leftTabs.erase title, rightTabs := w.rightTabs ++ [title] }
  else w

/-- MoveTab._execute (main_window.py lines 30-71) over the tab-world state:
count both tab bars, check the tab starts in the right pane, move it left and
check both deltas and the new parent, move it back and check both counts are
restored and the parent is the right pane again.  Returns the recorded
(description, outcome) expectations in call order and the final world.  The
two is_visible spot checks touch content visibility, which the tab-world
state does not model, and are omitted. -/
def moveTabExecute (w0 : TabWorld) (title : String) :
    List (String × Bool) × TabWorld :=
  let leftCount := w0.leftTabs.length
  let rightCount := w0.rightTabs.length
  let w1 := moveTabCommand w0 title
  let w2 := moveTabCommand w1 title
  ([ (title ++ " tab is initialized in the right pane",
        decide (w0.tabPane title = some Pane.right)),
     ("1 tab removed from right pane",
        decide (w1.rightTabs.length = rightCount - 1)),
     ("1 tab added to the left pane",
        decide (w1.leftTabs.length = leftCount + 1)),
     ("Tab is parented under the left pane",
        decide (w1.tabPane title = some Pane.left)),
     ("1 tab removed from left pane",
        decide (w2.rightTabs.length = rightCount)),
     ("1 tab added to the right pane",
        decide (w2.leftTabs.length = leftCount)),
     ("Tab is parented under the right pane",
        decide (w2.tabPane title = some Pane.right)) ],
   w2)

/-- C10: MoveTab._execute is a round trip — for a tab present exactly once in
the right tab bar and absent from the left one, every expectation it records
is true; after the first move the tab's parent is the left tab bar, and after
the second move both tab bars have exactly their initial number of tabs and
the tab's parent is the right tab bar again. -/
theorem moveTab_round_trip_spec (w0 : TabWorld) (title : String)
    (h1 : w0.rightTabs.count title = 1) (h2 : title ∉ w0.leftTabs) :
    (∀ p ∈ (moveTabExecute w0 title).1, p.2 = true)
    ∧ (moveTabCommand w0 title).tabPane title = some Pane.left
    ∧ (moveTabExecute w0 title).2.rightTabs.length = w0.rightTabs.length
    ∧ (moveTabExecute w0 title).2.leftTabs.length = w0.leftTabs.length
    ∧ (moveTabExecute w0 title).2.tabPane title = some Pane.right := by
  have hmem : title ∈ w0.rightTabs := by
    rw [← List.count_pos_iff]
    omega
  have hnotr : title ∉ w0.rightTabs.erase title := by
    rw [← List.count_eq_zero, List.count_erase_self]
    omega
  have hmeml : title ∈ w0.leftTabs ++ [title] := by simp
  have herase : (w0.leftTabs ++ [title]).erase title = w0.leftTabs := by
    rw [List.erase_append_right _ h2]
    simp
  have hw1 : moveTabCommand w0 title
      = { leftTabs := w0.leftTabs ++ [title],
          rightTabs := w0.rightTabs.erase title } := by
    simp [moveTabCommand, hmem]
  have hw2 : moveTabCommand
      { leftTabs := w0.leftTabs ++ [title], rightTabs := w0.rightTabs.erase title }
      title
      = { leftTabs := w0.leftTabs,
          rightTabs := w0.rightTabs.erase title ++ [title] } := by
    simp [moveTabCommand, hnotr, hmeml, herase]
  have hlen_erase : (w0.rightTabs.erase title).length = w0.rightTabs.length - 1 :=
    List.length_erase_of_mem hmem
  have hpos : 0 < w0.rightTabs.length := List.length_pos.mpr (by
    intro hnil
    rw [hnil] at hmem
    cases hmem)
  have hpane0 : w0.tabPane title = some Pane.right := by
    simp [TabWorld.tabPane, hmem]
  have hpane1 : TabWorld.tabPane
      { leftTabs := w0.leftTabs ++ [title], rightTabs := w0.rightTabs.erase title }
      title = some Pane.left := by
    simp [TabWorld.tabPane, hnotr, hmeml]
  have hmemr2 : title ∈ w0.rightTabs.erase title ++ [title] := by simp
  have hpane2 : TabWorld.tabPane
      { leftTabs := w0.leftTabs, rightTabs := w0.rightTabs.erase title ++ [title] }
      title = some Pane.right := by
    simp [TabWorld.tabPane, hmemr2]
  refine ⟨?_, ?_, ?_, ?_, ?_⟩
  · intro p hp
    simp only [moveTabExecute] at hp
    rw [hw1] at hp
    rw [hw2] at hp
    simp only [List.mem_cons, List.not_mem_nil, or_false] at hp
    rcases hp with rfl | rfl | rfl | rfl | rfl | rfl | rfl
    · simpa using hpane0
    · simpa using hlen_erase
    · simp
    · simpa using hpane1
    · simp only [decide_eq_true_eq]
      simp only [List.length_append, List.length_cons, List.length_nil]
      omega
    · simp
    · simpa using hpane2
  · rw [hw1]
    exact hpane1
  · simp only [moveTabExecute]
    rw [hw1, hw2]
    simp only [List.length_append, List.length_cons, List.length_nil]
    omega
  · simp only [moveTabExecute]
    rw [hw1, hw2]
  · simp only [moveTabExecute]
    rw [hw1, hw2]
    exact hpane2

/-- Witness for C10: the Functions tab starting in the right pane next to
Modules, with CaptureLog on the left. -/
theorem moveTab_round_trip_spec_witness :
    (∀ p ∈ (moveTabExecute ⟨["CaptureLog"], ["Functions", "Modules"]⟩ "Functions").1,
        p.2 = true)
    ∧ (moveTabCommand ⟨["CaptureLog"], ["Functions", "Modules"]⟩ "Functions").tabPane
        "Functions" = some Pane.left
    ∧ (moveTabExecute ⟨["CaptureLog"], ["Functions", "Modules"]⟩ "Functions").2.rightTabs.length
        = 2
    ∧ (moveTabExecute ⟨["CaptureLog"], ["Functions", "Modules"]⟩ "Functions").2.leftTabs.length
        = 1
    ∧ (moveTabExecute ⟨["CaptureLog"], ["Functions", "Modules"]⟩ "Functions").2.tabPane
        "Functions" = some Pane.right := by
  obtain ⟨ha, hb, hc, hd, he⟩ := moveTab_round_trip_spec
    ⟨["CaptureLog"], ["Functions", "Modules"]⟩ "Functions" (by decide) (by decide)
  exact ⟨ha, hb, hc, hd, he⟩
